import Mathlib

/-!
Shallow embedding of the `ocr-pipeline` repository's manifest-tracking core
(`src/ocr_project/congressional/manifest.py`, `types.py`) and dataset-export
core (`src/ocr_project/dataset/export.py`), with theorems settling the
specification claims about them.

Modelling conventions:
* Python `datetime.now()` values are `Nat` timestamps passed explicitly.
* Python dicts (insertion ordered, insert-replaces-in-place) are association
  lists with an insert that replaces in place.
* Pydantic URL / Path values are `String`s.
* The manifest file on disk is the `disk : Option CollectionManifest`
  component of `ManagerState`; JSON (de)serialisation through pydantic is
  treated as the identity on the model value.
* Methods that mutate `self` and may `raise` are state transformers
  `ManagerState → ManagerState × Except String α`: a raise returns the state
  exactly as mutated so far together with `.error`.
* The float `size_mb` of `export_all` is modelled as a rational number.
-/

namespace OCRPipeline

/-- Model of the `ProcessingStatus` enum from `congressional/types.py`. -/
inductive ProcessingStatus where
  | pending
  | downloading
  | downloaded
  | processing
  | completed
  | failed
  | skipped
deriving DecidableEq

/-- Model of the `ResourceType` enum from `congressional/types.py`. -/
inductive ResourceType where
  | pdf
  | video
  | audio
  | text
  | html
deriving DecidableEq

/-- Model of the `SourceType` enum from `congressional/types.py`. -/
inductive SourceType where
  | govinfo_api
  | congress_gov
  | youtube
deriving DecidableEq

/-- Model of `ResourceRecord` from `congressional/types.py`. -/
structure ResourceRecord where
  url : String
  resource_type : ResourceType
  source_type : SourceType
  filename : String
  local_path : Option String := none
  discovered_at : Nat
  priority : Int
  download_status : ProcessingStatus := ProcessingStatus.pending
  ocr_status : Option ProcessingStatus := none
  transcription_status : Option ProcessingStatus := none
  ocr_output_path : Option String := none
  transcription_output_path : Option String := none
  error_message : Option String := none
  retry_count : Nat := 0
deriving DecidableEq

/-- Model of `ProceedingMetadata` from `congressional/types.py`. -/
structure ProceedingMetadata where
  url : String
  proceeding_id : String
  title : String
  date : Option Nat := none
  chamber : Option String := none
  committee : Option String := none
  congress_number : Option Int := none
  session_type : Option String := none
  witnesses : List String := []
  members : List String := []
  description : Option String := none
  topics : List String := []
deriving DecidableEq

/-- Model of `CollectionManifest` from `congressional/types.py`; `resources` is
the URL-keyed dict, kept as an insertion-ordered association list. -/
structure CollectionManifest where
  metadata : ProceedingMetadata
  started_at : Nat
  completed_at : Option Nat := none
  last_updated : Nat
  resources : List (String × ResourceRecord) := []
  total_resources : Nat := 0
  downloaded : Nat := 0
  ocr_completed : Nat := 0
  transcription_completed : Nat := 0
  failed : Nat := 0
deriving DecidableEq

/-- Lookup in a Python dict modelled as an association list. -/
def dictGet : String → List (String × ResourceRecord) → Option ResourceRecord
  | _, [] => none
  | k, (k', v) :: rest => if k' = k then some v else dictGet k rest

/-- Python dict assignment `d[k] = v`: replaces in place if the key exists,
otherwise appends (insertion order). -/
def dictInsert (k : String) (v : ResourceRecord) :
    List (String × ResourceRecord) → List (String × ResourceRecord)
  | [] => [(k, v)]
  | (k', v') :: rest =>
    if k' = k then (k, v) :: rest else (k', v') :: dictInsert k v rest

/-- The mutable state of a `ManifestManager`: the in-memory manifest and the
contents of the `manifest.json` file on disk (`none` = file absent). -/
structure ManagerState where
  manifest : Option CollectionManifest := none
  disk : Option CollectionManifest := none
deriving DecidableEq

/-- Model of `ManifestManager.save_manifest`: sets `last_updated` to now on the
in-memory manifest, then writes it to disk; raises if no manifest loaded. -/
def save_manifest (now : Nat) (s : ManagerState) :
    ManagerState × Except String Unit :=
  match s.manifest with
  | none => (s, Except.error "No manifest to save")
  | some m =>
    let m := { m with last_updated := now }
    ({ manifest := some m, disk := some m }, Except.ok ())

/-- Model of `ManifestManager.load_manifest`: raises FileNotFoundError when the
manifest file is absent; otherwise parses it into the in-memory manifest and
returns it. -/
def load_manifest (s : ManagerState) :
    ManagerState × Except String CollectionManifest :=
  match s.disk with
  | none => (s, Except.error "Manifest not found")
  | some m => ({ s with manifest := some m }, Except.ok m)

/-- Model of `ManifestManager.create_manifest`: fresh manifest (timestamps now),
then `save_manifest`. -/
def create_manifest (now : Nat) (metadata : ProceedingMetadata)
    (s : ManagerState) : ManagerState × Except String Unit :=
  let m : CollectionManifest :=
    { metadata := metadata, started_at := now, last_updated := now }
  save_manifest now { s with manifest := some m }

/-- Model of `ManifestManager.add_resource`: insert/overwrite by URL, recompute
`total_resources` as the dict size, persist. -/
def add_resource (now : Nat) (resource : ResourceRecord) (s : ManagerState) :
    ManagerState × Except String Unit :=
  match s.manifest with
  | none => (s, Except.error "No manifest loaded")
  | some m =>
    let resources := dictInsert resource.url resource m.resources
    let m := { m with resources := resources, total_resources := resources.length }
    save_manifest now { s with manifest := some m }

/-- Loop body of `ManifestManager._update_statistics`: one resource's
contribution to the accumulator
`(downloaded, ocr_completed, transcription_completed, failed)`,
mirroring the three `if/elif` blocks. -/
def statsStep (acc : Nat × Nat × Nat × Nat) (r : ResourceRecord) :
    Nat × Nat × Nat × Nat :=
  match acc with
  | (downloaded, ocr_completed, transcription_completed, failed) =>
    let dl :=
      if r.download_status = ProcessingStatus.downloaded then
        (downloaded + 1, failed)
      else if r.download_status = ProcessingStatus.failed then
        (downloaded, failed + 1)
      else (downloaded, failed)
    let oc :=
      if r.ocr_status = some ProcessingStatus.completed then
        (ocr_completed + 1, dl.2)
      else if r.ocr_status = some ProcessingStatus.failed then
        (ocr_completed, dl.2 + 1)
      else (ocr_completed, dl.2)
    let tr :=
      if r.transcription_status = some ProcessingStatus.completed then
        (transcription_completed + 1, oc.2)
      else if r.transcription_status = some ProcessingStatus.failed then
        (transcription_completed, oc.2 + 1)
      else (transcription_completed, oc.2)
    (dl.1, oc.1, tr.1, tr.2)

/-- Model of `ManifestManager._update_statistics`: fold `statsStep` over the dict
values and store the four counters. -/
def updateStatistics (m : CollectionManifest) : CollectionManifest :=
  let st := (m.resources.map Prod.snd).foldl statsStep (0, 0, 0, 0)
  { m with
    downloaded := st.1,
    ocr_completed := st.2.1,
    transcription_completed := st.2.2.1,
    failed := st.2.2.2 }

/-- The per-resource field updates of `update_resource_status`: only non-null
arguments are applied. -/
def applyStatusUpdate (r : ResourceRecord)
    (download_status ocr_status transcription_status : Option ProcessingStatus)
    (error_message : Option String) : ResourceRecord :=
  let r := match download_status with
    | some v => { r with download_status := v }
    | none => r
  let r := match ocr_status with
    | some v => { r with ocr_status := some v }
    | none => r
  let r := match transcription_status with
    | some v => { r with transcription_status := some v }
    | none => r
  match error_message with
  | some v => { r with error_message := some v }
  | none => r

/-- Model of `ManifestManager.update_resource_status`: KeyError when absent
(before any mutation); otherwise apply the non-null fields, recompute the
statistics, persist. -/
def update_resource_status (now : Nat) (url : String)
    (download_status ocr_status transcription_status : Option ProcessingStatus)
    (error_message : Option String) (s : ManagerState) :
    ManagerState × Except String Unit :=
  match s.manifest with
  | none => (s, Except.error "No manifest loaded")
  | some m =>
    match dictGet url m.resources with
    | none => (s, Except.error ("Resource not found in manifest: " ++ url))
    | some r =>
      let r := applyStatusUpdate r download_status ocr_status
        transcription_status error_message
      let m := { m with resources := dictInsert url r m.resources }
      let m := updateStatistics m
      save_manifest now { s with manifest := some m }

/-- Model of `ManifestManager.mark_completed`: set `completed_at`, persist. -/
def mark_completed (now : Nat) (s : ManagerState) :
    ManagerState × Except String Unit :=
  match s.manifest with
  | none => (s, Except.error "No manifest loaded")
  | some m =>
    let m := { m with completed_at := some now }
    save_manifest now { s with manifest := some m }

/-! ## Dataset export core (`dataset/export.py`) -/

/-- Python ASCII whitespace characters, as stripped by `int(str)`. -/
def isPySpace (c : Char) : Bool :=
  c = ' ' ∨ c = '\t' ∨ c = '\n' ∨ c = '\x0d' ∨ c = '\x0b' ∨ c = '\x0c'

/-- ASCII decimal digit test. -/
def isDigitChar (c : Char) : Bool := '0' ≤ c ∧ c ≤ '9'

/-- After an initial digit, Python integer literals allow further digits with
single underscores strictly between digits. -/
def digitsTail : List Char → Bool
  | [] => true
  | c :: rest =>
    if c = '_' then
      match rest with
      | [] => false
      | c2 :: rest2 => isDigitChar c2 && digitsTail rest2
    else
      isDigitChar c && digitsTail rest

/-- Numeric value of a digit string, ignoring underscores. -/
def digitsValue (l : List Char) : Nat :=
  (l.filter (fun c => c ≠ '_')).foldl (fun a c => 10 * a + (c.toNat - 48)) 0

/-- Digit-string part of a Python integer literal: a digit followed by
digits/underscores per `digitsTail`, with its numeric value. -/
def pyIntDigits : List Char → Option Nat
  | [] => none
  | c :: rest =>
    if isDigitChar c && digitsTail rest then some (digitsValue (c :: rest))
    else none

/-- Optional sign followed by the digit string. -/
def pyIntBody : List Char → Option Int
  | [] => none
  | c :: rest =>
    if c = '+' then (pyIntDigits rest).map Int.ofNat
    else if c = '-' then (pyIntDigits rest).map (fun n => -(Int.ofNat n))
    else (pyIntDigits (c :: rest)).map Int.ofNat

/-- Strip Python whitespace from both ends. -/
def stripPySpace (l : List Char) : List Char :=
  ((l.dropWhile isPySpace).reverse.dropWhile isPySpace).reverse

/-- Model of Python `int(s)` on a string (as a character list): strips
whitespace at both ends, accepts one optional sign, then a digit string with
optional single underscores between digits; `none` models `ValueError`. -/
def pyInt (s : List Char) : Option Int :=
  pyIntBody (stripPySpace s)

/-- Model of `"sep" in s` and `s.rsplit(sep, 1)` combined: `none` when `sep`
does not occur in `s`, otherwise the pieces before and after the LAST
occurrence of `sep`. -/
def rsplitOnce (sep : List Char) : List Char → Option (List Char × List Char)
  | [] => none
  | c :: rest =>
    match rsplitOnce sep rest with
    | some (pre, post) => some (c :: pre, post)
    | none =>
      if sep.isPrefixOf (c :: rest) then
        some ([], (c :: rest).drop sep.length)
      else none

/-- The characters of `"_page"`. -/
def pageSep : List Char := ['_', 'p', 'a', 'g', 'e']

/-- One record of `DatasetExporter.collect_files`. -/
structure ExportRecord where
  id : String
  source_file : List Char
  split : String
  page_number : Option Int
  text : List Char
  text_length : Nat
  file_path : String
deriving DecidableEq

/-- Expression `parts[0] if len(parts) > 1 else "train"` of `collect_files`. -/
def splitOf (parts : List String) : String :=
  match parts with
  | p :: _ :: _ => p
  | _ => "train"

/-- Pair `(base_name, page_num)` as computed by `collect_files` from the stem:
if `"_page"` occurs, rsplit at its last occurrence and try `int()` on the
suffix, falling back to the whole stem on `ValueError`. -/
def basePage (filename : List Char) : List Char × Option Int :=
  match rsplitOnce pageSep filename with
  | none => (filename, none)
  | some (base_name, page_str) =>
    match pyInt page_str with
    | some n => (base_name, some n)
    | none => (filename, none)

/-- The record `collect_files` builds for one markdown file, from the parts of
its path relative to the subset directory, its stem, and its text. -/
def collectRecord (parts : List String) (stem : List Char) (text : List Char) :
    ExportRecord :=
  let relPath := String.intercalate "/" parts
  let bp := basePage stem
  { id := relPath
    source_file := bp.1
    split := splitOf parts
    page_number := bp.2
    text := text
    text_length := text.length
    file_path := relPath }

/-- Truthiness of the optional `split` argument of `export_subset`
(`if split:` — `None` and the empty string are falsy). -/
def splitTruthy : Option String → Bool
  | none => false
  | some s => s ≠ ""

/-- Model of `DatasetExporter.export_subset` on the collected records of a
subset directory: fails when it is absent or when, after the optional
split filter, no records remain; otherwise returns the output filename and
the records written to the parquet file. -/
def export_subset (subset_name : String) (dirExists : Bool)
    (collected : List ExportRecord) (split : Option String) :
    Except String (String × List ExportRecord) :=
  if dirExists = false then
    Except.error ("Subset directory not found: " ++ subset_name)
  else
    let records :=
      if splitTruthy split then
        collected.filter (fun r => r.split = split.getD "")
      else collected
    if records = [] then
      Except.error ("No records found for subset " ++ subset_name)
    else
      let output_filename :=
        if splitTruthy split then
          subset_name ++ "-" ++ split.getD "" ++ ".parquet"
        else subset_name ++ ".parquet"
      Except.ok (output_filename, records)

/-- The shard slices of `export_all`: `shard_size = len // num_shards`, shard
`i` is `records[i*shard_size : (i+1)*shard_size]` except the last, which runs
to the end of the list. -/
def shardSlices (records : List ExportRecord) (num_shards : Nat) :
    List (List ExportRecord) :=
  let shard_size := records.length / num_shards
  (List.range num_shards).map (fun i =>
    let start_idx := i * shard_size
    let end_idx :=
      if i < num_shards - 1 then start_idx + shard_size else records.length
    ((records.drop start_idx).take (end_idx - start_idx)))

/-- Per-split decision of `export_all`: the list of record groups, one per
parquet file written for the split. `size_mb` is the estimated in-memory size
(a float in the source, modelled as a rational); sharding happens only when it
strictly exceeds `max_shard_size_mb`, with
`num_shards = int(size_mb / max_shard_size_mb) + 1`. -/
def exportSplitFiles (split_records : List ExportRecord) (size_mb : ℚ)
    (max_shard_size_mb : ℚ) : List (List ExportRecord) :=
  if size_mb > max_shard_size_mb then
    let num_shards := (⌊size_mb / max_shard_size_mb⌋).toNat + 1
    shardSlices split_records num_shards
  else
    [split_records]

/-- Model of `DatasetExporter.create_parquet` on a record group: building
the typed arrow table raises a KeyError when `records` is empty, because
`pd.DataFrame([])` has none of the seven schema columns; for a non-empty
group every schema column is present and the parquet file is written. -/
def create_parquet (records : List ExportRecord) : Except String Unit :=
  if records = [] then Except.error "KeyError" else Except.ok ()

/-- Shard-writing loop of `export_all`: call `create_parquet` on each shard
group in index order, aborting at the first raised error (there is no
try/except around the loop); on success, the number of files written. -/
def writeShardFiles : List (List ExportRecord) → Except String Nat
  | [] => Except.ok 0
  | g :: rest =>
    match create_parquet g with
    | Except.error e => Except.error e
    | Except.ok _ => (writeShardFiles rest).map (fun n => n + 1)

/-- Characters that can appear in a string accepted by Python `int`. -/
def pyIntChar (c : Char) : Bool :=
  isPySpace c || c = '+' || c = '-' || c = '_' || isDigitChar c

/-- Number of resources whose download status is `downloaded` (spec
re-scan). -/
def specDownloaded (l : List ResourceRecord) : Nat :=
  l.countP (fun r => r.download_status = ProcessingStatus.downloaded)

/-- Number of resources whose OCR status is `completed` (spec re-scan). -/
def specOcrCompleted (l : List ResourceRecord) : Nat :=
  l.countP (fun r => r.ocr_status = some ProcessingStatus.completed)

/-- Number of resources whose transcription status is `completed` (spec
re-scan). -/
def specTranscriptionCompleted (l : List ResourceRecord) : Nat :=
  l.countP (fun r => r.transcription_status = some ProcessingStatus.completed)

/-- Total number of (resource, stage) pairs whose status is `failed`, across
the download, OCR and transcription stages (spec re-scan: a resource that
failed at two stages contributes 2). -/
def specFailed (l : List ResourceRecord) : Nat :=
  l.countP (fun r => r.download_status = ProcessingStatus.failed)
    + l.countP (fun r => r.ocr_status = some ProcessingStatus.failed)
    + l.countP (fun r => r.transcription_status = some ProcessingStatus.failed)

/-- A sequence of `add_resource` calls, threading the manager state. -/
def addAll (l : List (Nat × ResourceRecord)) (s : ManagerState) :
    ManagerState :=
  l.foldl (fun s p => (add_resource p.1 p.2 s).1) s

/-- A concrete export record used to instantiate theorems. -/
def sampleExportRecord : ExportRecord :=
  { id := "train/a.md"
    source_file := ['a']
    split := "train"
    page_number := none
    text := ['h', 'i']
    text_length := 2
    file_path := "train/a.md" }

/-- A concrete three-record split. -/
def sampleRecords3 : List ExportRecord :=
  [sampleExportRecord, sampleExportRecord, sampleExportRecord]

/-- A concrete resource record. -/
def sampleResource : ResourceRecord :=
  { url := "http://x/a.pdf"
    resource_type := ResourceType.pdf
    source_type := SourceType.govinfo_api
    filename := "a.pdf"
    discovered_at := 0
    priority := 1 }

/-- Concrete proceeding metadata. -/
def sampleMetadata : ProceedingMetadata :=
  { url := "http://x", proceeding_id := "p1", title := "t" }

/-- A concrete one-resource manifest. -/
def sampleManifest : CollectionManifest :=
  { metadata := sampleMetadata
    started_at := 0
    last_updated := 0
    resources := [("http://x/a.pdf", sampleResource)]
    total_resources := 1 }

/-- A manager state holding `sampleManifest` in memory and on disk. -/
def sampleState : ManagerState :=
  { manifest := some sampleManifest, disk := some sampleManifest }

/-- A freshly created (empty) manifest. -/
def emptyManifest : CollectionManifest :=
  { metadata := sampleMetadata, started_at := 0, last_updated := 0 }

/-- A manager state holding the empty manifest. -/
def emptyState : ManagerState :=
  { manifest := some emptyManifest, disk := some emptyManifest }

/-! ## Sharding lemmas -/

lemma getD_map_range {α : Type} (f : Nat → α) (k i : Nat) (h : i < k) (d : α) :
    ((List.range k).map f).getD i d = f i := by
  simp [List.getD_eq_getElem?_getD, List.getElem?_map, List.getElem?_range, h]

lemma join_map_range_slices {α : Type} (l : List α) (s : Nat) (k : Nat) :
    ((List.range k).map (fun i => (l.drop (i * s)).take s)).flatten
      = l.take (k * s) := by
  induction k with
  | zero => simp
  | succ k ih =>
    rw [List.range_succ, List.map_append, List.flatten_append, ih]
    simp [Nat.succ_mul, List.take_add]

lemma shardSlices_eq (l : List ExportRecord) (m : Nat) (hm : 1 ≤ m) :
    shardSlices l m =
      (List.range (m - 1)).map
        (fun i => (l.drop (i * (l.length / m))).take (l.length / m))
      ++ [l.drop ((m - 1) * (l.length / m))] := by
  unfold shardSlices
  obtain ⟨m', rfl⟩ : ∃ m', m = m' + 1 := ⟨m - 1, (Nat.succ_pred_eq_of_pos hm).symm⟩
  rw [List.range_succ, List.map_append]
  congr 1
  · refine List.map_congr_left (fun i hi => ?_)
    have hi' : i < m' + 1 - 1 := by
      have := List.mem_range.mp hi
      omega
    dsimp only
    rw [if_pos hi']
    rw [Nat.add_sub_cancel_left]
  · have hlt : ¬ (m' < m' + 1 - 1) := by omega
    dsimp only [List.map_cons, List.map_nil]
    rw [if_neg hlt, Nat.add_sub_cancel]
    rw [List.take_of_length_le (by simp)]

lemma length_shardSlices (l : List ExportRecord) (m : Nat) :
    (shardSlices l m).length = m := by
  simp [shardSlices]

lemma shardSlices_getD (l : List ExportRecord) (m i : Nat) (h : i < m) :
    (shardSlices l m).getD i [] =
      (l.drop (i * (l.length / m))).take
        ((if i < m - 1 then i * (l.length / m) + l.length / m else l.length)
          - i * (l.length / m)) := by
  unfold shardSlices
  exact getD_map_range _ m i h []

lemma mul_div_le_length (l : List ExportRecord) (m i : Nat) (h : i + 1 ≤ m) :
    (i + 1) * (l.length / m) ≤ l.length := by
  calc (i + 1) * (l.length / m) ≤ m * (l.length / m) :=
        Nat.mul_le_mul_right _ h
    _ ≤ l.length := by
        rw [Nat.mul_comm]
        exact Nat.div_mul_le_self _ _

/-- Claim C5: when `export_all` shards a split, the shard groups are
contiguous slices of the split's record list in record order: every shard but
the last holds exactly `len / shard_count` records, the last runs to the end
of the list, and the concatenation of the shards in index order is exactly
the original record list. -/
theorem export_all_shard_partition (l : List ExportRecord) (m : Nat)
    (hm : 1 ≤ m) :
    (shardSlices l m).flatten = l ∧
    (shardSlices l m).length = m ∧
    (∀ i, i < m - 1 →
      (shardSlices l m).getD i [] =
        (l.drop (i * (l.length / m))).take (l.length / m) ∧
      ((shardSlices l m).getD i []).length = l.length / m) ∧
    (shardSlices l m).getD (m - 1) [] = l.drop ((m - 1) * (l.length / m)) ∧
    ((shardSlices l m).getD (m - 1) []).length
      = l.length - (m - 1) * (l.length / m) := by
  have hmid : ∀ i, i < m - 1 →
      (shardSlices l m).getD i [] =
        (l.drop (i * (l.length / m))).take (l.length / m) := by
    intro i hi
    rw [shardSlices_getD l m i (by omega), if_pos hi, Nat.add_sub_cancel_left]
  have hlast : (shardSlices l m).getD (m - 1) []
      = l.drop ((m - 1) * (l.length / m)) := by
    rw [shardSlices_getD l m (m - 1) (by omega), if_neg (by omega)]
    exact List.take_of_length_le (by simp)
  refine ⟨?_, length_shardSlices l m, fun i hi => ⟨hmid i hi, ?_⟩, hlast, ?_⟩
  · rw [shardSlices_eq l m hm, List.flatten_append, join_map_range_slices]
    simp [List.take_append_drop]
  · rw [hmid i hi]
    have hle : i * (l.length / m) + l.length / m ≤ l.length := by
      have := mul_div_le_length l m i (by omega)
      rwa [Nat.succ_mul] at this
    rw [List.length_take, List.length_drop]
    omega
  · rw [hlast, List.length_drop]

/-- Counterexample to claim C10 as stated: one record with estimated size
3 MB against a 1 MB bound gives four shard groups, the first of which is
empty; `create_parquet` raises a KeyError on that empty group, so the shard
loop aborts instead of writing a parquet file for each empty shard group. -/
theorem export_all_empty_shard_group_counterexample :
    (exportSplitFiles [sampleExportRecord] 3 1).getD 0 [] = [] ∧
    create_parquet ((exportSplitFiles [sampleExportRecord] 3 1).getD 0 [])
      = Except.error "KeyError" ∧
    writeShardFiles (exportSplitFiles [sampleExportRecord] 3 1)
      = Except.error "KeyError" := by
  have h4 : (⌊(3 : ℚ) / 1⌋).toNat + 1 = 4 := by simp
  have h : exportSplitFiles [sampleExportRecord] 3 1
      = shardSlices [sampleExportRecord] 4 := by
    unfold exportSplitFiles
    rw [if_pos (by decide : (3 : ℚ) > 1), h4]
  rw [h]
  exact ⟨rfl, rfl, rfl⟩

/-- Claim C10 (amended): when the computed shard count exceeds the number of
records in a split, the per-shard size `len / shard_count` is zero, so every
shard but the last is an empty record group while the last receives all the
records — but no parquet file is written for an empty shard group:
`create_parquet` raises a KeyError on an empty record list, so the shard
loop aborts at the first (empty) shard group. -/
theorem export_all_more_shards_aborts (l : List ExportRecord)
    (size_mb max_mb : ℚ) (hmax : 0 < max_mb) (hgt : size_mb > max_mb)
    (hn : l.length < (⌊size_mb / max_mb⌋).toNat + 1) :
    (exportSplitFiles l size_mb max_mb).length
      = (⌊size_mb / max_mb⌋).toNat + 1 ∧
    (∀ i, i < (⌊size_mb / max_mb⌋).toNat + 1 - 1 →
      (exportSplitFiles l size_mb max_mb).getD i [] = []) ∧
    (exportSplitFiles l size_mb max_mb).getD
      ((⌊size_mb / max_mb⌋).toNat + 1 - 1) [] = l ∧
    (exportSplitFiles l size_mb max_mb).getD 0 [] = [] ∧
    create_parquet ((exportSplitFiles l size_mb max_mb).getD 0 [])
      = Except.error "KeyError" ∧
    writeShardFiles (exportSplitFiles l size_mb max_mb)
      = Except.error "KeyError" := by
  have hexp : exportSplitFiles l size_mb max_mb
      = shardSlices l ((⌊size_mb / max_mb⌋).toNat + 1) := by
    unfold exportSplitFiles
    rw [if_pos hgt]
  have hs : l.length / ((⌊size_mb / max_mb⌋).toNat + 1) = 0 :=
    Nat.div_eq_of_lt hn
  have hfl : 1 ≤ ⌊size_mb / max_mb⌋ := by
    rw [Int.le_floor]
    push_cast
    rw [le_div_iff₀ hmax]
    simpa using le_of_lt hgt
  have hns2 : 2 ≤ (⌊size_mb / max_mb⌋).toNat + 1 := by omega
  have hlen : (exportSplitFiles l size_mb max_mb).length
      = (⌊size_mb / max_mb⌋).toNat + 1 := by
    rw [hexp, length_shardSlices]
  have hempties : ∀ i, i < (⌊size_mb / max_mb⌋).toNat + 1 - 1 →
      (exportSplitFiles l size_mb max_mb).getD i [] = [] := by
    intro i hi
    rw [hexp, shardSlices_getD _ _ i (by omega), if_pos hi, hs]
    simp
  have hfirst : (exportSplitFiles l size_mb max_mb).getD 0 [] = [] :=
    hempties 0 (by omega)
  have hcp : create_parquet
      ((exportSplitFiles l size_mb max_mb).getD 0 [])
      = Except.error "KeyError" := by
    rw [hfirst]
    rfl
  refine ⟨hlen, hempties, ?_, hfirst, hcp, ?_⟩
  · rw [hexp, shardSlices_getD _ _ _ (by omega), if_neg (by omega), hs]
    simp only [Nat.mul_zero, List.drop_zero, Nat.sub_zero]
    exact List.take_of_length_le (Nat.le_refl _)
  · cases hsl : exportSplitFiles l size_mb max_mb with
    | nil =>
      exfalso
      rw [hsl] at hlen
      simp at hlen
    | cons g rest =>
      have hg : g = [] := by
        rw [hsl] at hfirst
        simpa using hfirst
      rw [hg]
      simp [writeShardFiles, create_parquet]

/-- Claim C2: in `export_all`, a split whose estimated size is at most
`max_shard_size_mb` is written as exactly one file, and a split whose
estimated size is `max_shard_size_mb * k + ε` with `k ≥ 1` and
`0 < ε < max_shard_size_mb` is written as exactly
`floor(size_mb / max_shard_size_mb) + 1 = k + 1` shard files. -/
theorem export_all_shard_count (l : List ExportRecord) (size_mb max_mb : ℚ)
    (hmax : 0 < max_mb) :
    (size_mb ≤ max_mb → (exportSplitFiles l size_mb max_mb).length = 1) ∧
    (∀ k : Nat, 1 ≤ k → ∀ ε : ℚ, 0 < ε → ε < max_mb →
      size_mb = max_mb * k + ε →
      (exportSplitFiles l size_mb max_mb).length
        = (⌊size_mb / max_mb⌋).toNat + 1 ∧
      (exportSplitFiles l size_mb max_mb).length = k + 1) := by
  constructor
  · intro hle
    unfold exportSplitFiles
    rw [if_neg (not_lt.mpr hle)]
    rfl
  · intro k hk ε hε hεlt hsz
    have hk1 : (1 : ℚ) ≤ (k : ℚ) := by exact_mod_cast hk
    have hgt : size_mb > max_mb := by
      rw [hsz]
      have : max_mb * 1 ≤ max_mb * k := by
        apply mul_le_mul_of_nonneg_left hk1 (le_of_lt hmax)
      nlinarith
    have hdiv : size_mb / max_mb = ε / max_mb + (k : ℚ) := by
      rw [hsz]
      field_simp
      ring
    have hfloor : ⌊size_mb / max_mb⌋ = (k : ℤ) := by
      rw [hdiv]
      have h0 : (0 : ℚ) ≤ ε / max_mb := le_of_lt (div_pos hε hmax)
      have h1 : ε / max_mb < 1 := (div_lt_one hmax).mpr hεlt
      rw [show ((k : ℚ)) = ((k : ℤ) : ℚ) by push_cast; ring, Int.floor_add_int]
      have : ⌊ε / max_mb⌋ = 0 := by
        rw [Int.floor_eq_zero_iff]
        exact ⟨h0, h1⟩
      omega
    have hlen : (exportSplitFiles l size_mb max_mb).length
        = (⌊size_mb / max_mb⌋).toNat + 1 := by
      unfold exportSplitFiles
      rw [if_pos hgt, length_shardSlices]
    refine ⟨hlen, ?_⟩
    rw [hlen, hfloor]
    simp

/-- Witness for `export_all_shard_partition`: a three-record split cut into
two shards. -/
theorem export_all_shard_partition_witness :
    1 ≤ 2 ∧
    ((shardSlices sampleRecords3 2).flatten = sampleRecords3 ∧
     (shardSlices sampleRecords3 2).length = 2 ∧
     (∀ i, i < 2 - 1 →
       (shardSlices sampleRecords3 2).getD i [] =
         (sampleRecords3.drop (i * (sampleRecords3.length / 2))).take
           (sampleRecords3.length / 2) ∧
       ((shardSlices sampleRecords3 2).getD i []).length
         = sampleRecords3.length / 2) ∧
     (shardSlices sampleRecords3 2).getD (2 - 1) []
       = sampleRecords3.drop ((2 - 1) * (sampleRecords3.length / 2)) ∧
     ((shardSlices sampleRecords3 2).getD (2 - 1) []).length
       = sampleRecords3.length - (2 - 1) * (sampleRecords3.length / 2)) :=
  ⟨by decide, export_all_shard_partition sampleRecords3 2 (by decide)⟩

/-- Witness for `export_all_more_shards_aborts`: a one-record split with
estimated size 3 MB against a 1 MB bound. -/
theorem export_all_more_shards_aborts_witness :
    ((0 : ℚ) < 1) ∧ ((3 : ℚ) > 1) ∧
    (([sampleExportRecord] : List ExportRecord).length
      < (⌊(3 : ℚ) / 1⌋).toNat + 1) ∧
    ((exportSplitFiles [sampleExportRecord] 3 1).length
      = (⌊(3 : ℚ) / 1⌋).toNat + 1 ∧
    (∀ i, i < (⌊(3 : ℚ) / 1⌋).toNat + 1 - 1 →
      (exportSplitFiles [sampleExportRecord] 3 1).getD i [] = []) ∧
    (exportSplitFiles [sampleExportRecord] 3 1).getD
      ((⌊(3 : ℚ) / 1⌋).toNat + 1 - 1) [] = [sampleExportRecord] ∧
    (exportSplitFiles [sampleExportRecord] 3 1).getD 0 [] = [] ∧
    create_parquet
        ((exportSplitFiles [sampleExportRecord] 3 1).getD 0 [])
      = Except.error "KeyError" ∧
    writeShardFiles (exportSplitFiles [sampleExportRecord] 3 1)
      = Except.error "KeyError") :=
  ⟨by decide, by decide, by simp,
    export_all_more_shards_aborts [sampleExportRecord] 3 1 (by decide)
      (by decide) (by simp)⟩

/-- Witness for `export_all_shard_count`: estimated size 1 MB under a 2 MB
bound. -/
theorem export_all_shard_count_witness :
    (0 : ℚ) < 2 ∧
    (((1 : ℚ) ≤ 2 → (exportSplitFiles sampleRecords3 1 2).length = 1) ∧
     (∀ k : Nat, 1 ≤ k → ∀ ε : ℚ, 0 < ε → ε < 2 →
       (1 : ℚ) = 2 * k + ε →
       (exportSplitFiles sampleRecords3 1 2).length
         = (⌊(1 : ℚ) / 2⌋).toNat + 1 ∧
       (exportSplitFiles sampleRecords3 1 2).length = k + 1)) :=
  ⟨by decide, export_all_shard_count sampleRecords3 1 2 (by decide)⟩

/-- Claim C7: `export_subset` fails with an error when the subset directory
does not exist, when the collected records are empty, or when the optional
split filter leaves zero records; a parquet file is written only on success,
and the record list written is never empty. -/
theorem export_subset_failure_conditions (subset_name : String)
    (dirExists : Bool) (collected : List ExportRecord)
    (split : Option String) :
    (dirExists = false →
      ∃ e, export_subset subset_name dirExists collected split
        = Except.error e) ∧
    (collected = [] →
      ∃ e, export_subset subset_name dirExists collected split
        = Except.error e) ∧
    ((if splitTruthy split then
        collected.filter (fun r => r.split = split.getD "")
      else collected) = [] →
      ∃ e, export_subset subset_name dirExists collected split
        = Except.error e) ∧
    (∀ fn recs,
      export_subset subset_name dirExists collected split
        = Except.ok (fn, recs) → recs ≠ []) := by
  refine ⟨?_, ?_, ?_, ?_⟩
  · intro h
    exact ⟨"Subset directory not found: " ++ subset_name,
      by simp [export_subset, h]⟩
  · intro h
    by_cases h1 : dirExists = false
    · exact ⟨"Subset directory not found: " ++ subset_name,
        by simp [export_subset, h1]⟩
    · exact ⟨"No records found for subset " ++ subset_name,
        by simp [export_subset, h1, h]⟩
  · intro h
    by_cases h1 : dirExists = false
    · exact ⟨"Subset directory not found: " ++ subset_name,
        by simp [export_subset, h1]⟩
    · exact ⟨"No records found for subset " ++ subset_name,
        by simp [export_subset, h1, h]⟩
  · intro fn recs h
    by_cases h1 : dirExists = false
    · simp [export_subset, h1] at h
    · by_cases h2 : (if splitTruthy split then
          collected.filter (fun r => r.split = split.getD "")
        else collected) = []
      · simp [export_subset, h1, h2] at h
      · simp only [export_subset, if_neg h1, if_neg h2, Except.ok.injEq,
          Prod.mk.injEq] at h
        rw [← h.2]
        exact h2

/-- Witness for `export_subset_failure_conditions`: one record of split
`train`, no filter. -/
theorem export_subset_failure_conditions_witness :
    (true = false →
      ∃ e, export_subset "s" true [sampleExportRecord] none
        = Except.error e) ∧
    ([sampleExportRecord] = ([] : List ExportRecord) →
      ∃ e, export_subset "s" true [sampleExportRecord] none
        = Except.error e) ∧
    ((if splitTruthy none then
        [sampleExportRecord].filter
          (fun r => r.split = (none : Option String).getD "")
      else [sampleExportRecord]) = [] →
      ∃ e, export_subset "s" true [sampleExportRecord] none
        = Except.error e) ∧
    (∀ fn recs,
      export_subset "s" true [sampleExportRecord] none
        = Except.ok (fn, recs) → recs ≠ []) :=
  export_subset_failure_conditions "s" true [sampleExportRecord] none

/-! ## Lemmas about `rsplitOnce` and Python int parsing -/

lemma rsplitOnce_sound (sep : List Char) :
    ∀ l a b, rsplitOnce sep l = some (a, b) → l = a ++ sep ++ b := by
  intro l
  induction l with
  | nil => intro a b h; simp [rsplitOnce] at h
  | cons c rest ih =>
    intro a b h
    unfold rsplitOnce at h
    cases hr : rsplitOnce sep rest with
    | some p =>
      obtain ⟨pre, post⟩ := p
      rw [hr] at h
      simp only [Option.some.injEq, Prod.mk.injEq] at h
      obtain ⟨ha, hb⟩ := h
      subst ha hb
      rw [ih pre post hr]
      simp
    | none =>
      rw [hr] at h
      by_cases hp : sep.isPrefixOf (c :: rest)
      · rw [if_pos hp] at h
        simp only [Option.some.injEq, Prod.mk.injEq] at h
        obtain ⟨ha, hb⟩ := h
        subst ha hb
        have hpre : sep <+: (c :: rest) := List.isPrefixOf_iff_prefix.mp hp
        obtain ⟨t, ht⟩ := hpre
        conv_lhs => rw [← ht]
        rw [← ht, List.nil_append, List.drop_left]
      · rw [if_neg hp] at h
        cases h

lemma rsplitOnce_of_decomp (sep : List Char) (hsep : sep ≠ []) :
    ∀ a b, (rsplitOnce sep (a ++ sep ++ b)).isSome = true := by
  intro a
  induction a with
  | nil =>
    intro b
    obtain ⟨s0, sep', rfl⟩ : ∃ s0 sep', sep = s0 :: sep' := by
      cases sep with
      | nil => exact absurd rfl hsep
      | cons x xs => exact ⟨x, xs, rfl⟩
    simp only [List.nil_append, List.cons_append]
    unfold rsplitOnce
    cases hr : rsplitOnce (s0 :: sep') (sep' ++ b) with
    | some p => simp
    | none =>
      have hp : (s0 :: sep').isPrefixOf (s0 :: (sep' ++ b)) = true := by
        rw [ List.isPrefixOf_iff_prefix]
        exact ⟨b, by simp⟩
      simp [hp]
  | cons c a' ih =>
    intro b
    simp only [List.cons_append]
    unfold rsplitOnce
    cases hr : rsplitOnce sep (a' ++ sep ++ b) with
    | some p => simp
    | none =>
      exfalso
      have hs := ih b
      rw [hr] at hs
      simp at hs

lemma rsplitOnce_last (sep : List Char) (hsep : sep ≠ []) :
    ∀ base ds, (∀ u v, sep ++ ds = u ++ sep ++ v → u = []) →
      rsplitOnce sep (base ++ sep ++ ds) = some (base, ds) := by
  intro base
  induction base with
  | nil =>
    intro ds H
    obtain ⟨s0, sep', rfl⟩ : ∃ s0 sep', sep = s0 :: sep' := by
      cases sep with
      | nil => exact absurd rfl hsep
      | cons x xs => exact ⟨x, xs, rfl⟩
    simp only [List.nil_append, List.cons_append]
    unfold rsplitOnce
    cases hr : rsplitOnce (s0 :: sep') (sep' ++ ds) with
    | some p =>
      exfalso
      obtain ⟨pre, post⟩ := p
      have hdec := rsplitOnce_sound (s0 :: sep') (sep' ++ ds) pre post hr
      have hdec2 : (s0 :: sep') ++ ds = (s0 :: pre) ++ (s0 :: sep') ++ post := by
        simp only [List.cons_append, List.append_assoc] at hdec ⊢
        rw [hdec]
      cases H (s0 :: pre) post hdec2
    | none =>
      have hp : (s0 :: sep').isPrefixOf (s0 :: (sep' ++ ds)) = true := by
        rw [ List.isPrefixOf_iff_prefix]
        exact ⟨ds, by simp⟩
      rw [if_pos hp]
      have hdrop : (s0 :: (sep' ++ ds)).drop (s0 :: sep').length = ds := by
        have : s0 :: (sep' ++ ds) = (s0 :: sep') ++ ds := by simp
        rw [this, List.drop_left]
      rw [hdrop]
  | cons c base' ih =>
    intro ds H
    simp only [List.cons_append]
    unfold rsplitOnce
    rw [ih ds H]

lemma digitsTail_mem : ∀ l, digitsTail l = true →
    ∀ c ∈ l, isDigitChar c = true ∨ c = '_' := by
  intro l
  induction l with
  | nil => intro _ c hc; cases hc
  | cons a rest ih =>
    intro h c hc
    unfold digitsTail at h
    by_cases ha : a = '_'
    · rw [if_pos ha] at h
      cases rest with
      | nil => cases h
      | cons c2 rest2 =>
        simp only [Bool.and_eq_true] at h
        obtain ⟨h1, h2⟩ := h
        have hc2 : ¬ (c2 = '_') := by
          intro hx
          rw [hx] at h1
          exact absurd h1 (by decide)
        have hdt : digitsTail (c2 :: rest2) = true := by
          unfold digitsTail
          rw [if_neg hc2]
          simp [h1, h2]
        rcases List.mem_cons.mp hc with rfl | hc
        · right; exact ha
        · exact ih hdt c hc
    · rw [if_neg ha] at h
      simp only [Bool.and_eq_true] at h
      rcases List.mem_cons.mp hc with rfl | hc
      · left; exact h.1
      · exact ih h.2 c hc

lemma pyIntDigits_mem (l : List Char) (n : Nat) (h : pyIntDigits l = some n) :
    ∀ c ∈ l, isDigitChar c = true ∨ c = '_' := by
  cases l with
  | nil => cases h
  | cons a rest =>
    simp only [pyIntDigits] at h
    by_cases hd : (isDigitChar a && digitsTail rest) = true
    · intro c hc
      simp only [Bool.and_eq_true] at hd
      rcases List.mem_cons.mp hc with rfl | hc
      · left; exact hd.1
      · exact digitsTail_mem rest hd.2 c hc
    · rw [if_neg hd] at h
      cases h

lemma pyIntChar_of_digit_or_underscore {c : Char}
    (h : isDigitChar c = true ∨ c = '_') : pyIntChar c = true := by
  rcases h with h | rfl
  · simp [pyIntChar, h]
  · decide

lemma pyIntBody_mem (l : List Char) (n : Int) (h : pyIntBody l = some n) :
    ∀ c ∈ l, pyIntChar c = true := by
  cases l with
  | nil => cases h
  | cons a rest =>
    simp only [pyIntBody] at h
    intro c hc
    by_cases hp : a = '+'
    · rw [if_pos hp] at h
      rcases List.mem_cons.mp hc with rfl | hc
      · rw [hp]; decide
      · cases hd : pyIntDigits rest with
        | none => rw [hd] at h; cases h
        | some m =>
          exact pyIntChar_of_digit_or_underscore (pyIntDigits_mem rest m hd c hc)
    · rw [if_neg hp] at h
      by_cases hm : a = '-'
      · rw [if_pos hm] at h
        rcases List.mem_cons.mp hc with rfl | hc
        · rw [hm]; decide
        · cases hd : pyIntDigits rest with
          | none => rw [hd] at h; cases h
          | some m =>
            exact pyIntChar_of_digit_or_underscore
              (pyIntDigits_mem rest m hd c hc)
      · rw [if_neg hm] at h
        cases hd : pyIntDigits (a :: rest) with
        | none => rw [hd] at h; cases h
        | some m =>
          exact pyIntChar_of_digit_or_underscore
            (pyIntDigits_mem (a :: rest) m hd c hc)

lemma mem_stripPySpace {c : Char} {l : List Char} (hc : c ∈ l) :
    isPySpace c = true ∨ c ∈ stripPySpace l := by
  have hsplit : c ∈ l.takeWhile isPySpace ++ l.dropWhile isPySpace := by
    rw [List.takeWhile_append_dropWhile]
    exact hc
  rcases List.mem_append.mp hsplit with h | h
  · left; exact List.mem_takeWhile_imp h
  · have hrev : c ∈ (l.dropWhile isPySpace).reverse := List.mem_reverse.mpr h
    have hsplit2 : c ∈ (l.dropWhile isPySpace).reverse.takeWhile isPySpace
        ++ (l.dropWhile isPySpace).reverse.dropWhile isPySpace := by
      rw [List.takeWhile_append_dropWhile]
      exact hrev
    rcases List.mem_append.mp hsplit2 with h2 | h2
    · left; exact List.mem_takeWhile_imp h2
    · right
      exact List.mem_reverse.mpr h2

lemma pyInt_chars (ds : List Char) (n : Int) (h : pyInt ds = some n) :
    ∀ c ∈ ds, pyIntChar c = true := by
  intro c hc
  rcases mem_stripPySpace hc with hsp | hmem
  · simp [pyIntChar, hsp]
  · exact pyIntBody_mem _ n h c hmem

lemma no_late_pageSep (ds : List Char) (n : Int) (hds : pyInt ds = some n) :
    ∀ u v, pageSep ++ ds = u ++ pageSep ++ v → u = [] := by
  intro u v h
  cases u with
  | nil => rfl
  | cons c1 u1 =>
    exfalso
    simp only [pageSep, List.cons_append, List.nil_append,
      List.cons.injEq] at h
    obtain ⟨_, h⟩ := h
    cases u1 with
    | nil =>
      rw [List.nil_append] at h
      simp only [pageSep, List.cons_append] at h
      injection h with h1 _
      exact absurd h1 (by decide)
    | cons c2 u2 =>
      simp only [List.cons_append, List.cons.injEq] at h
      obtain ⟨_, h⟩ := h
      cases u2 with
      | nil =>
        rw [List.nil_append] at h
        simp only [pageSep, List.cons_append] at h
        injection h with h1 _
        exact absurd h1 (by decide)
      | cons c3 u3 =>
        simp only [List.cons_append, List.cons.injEq] at h
        obtain ⟨_, h⟩ := h
        cases u3 with
        | nil =>
          rw [List.nil_append] at h
          simp only [pageSep, List.cons_append] at h
          injection h with h1 _
          exact absurd h1 (by decide)
        | cons c4 u4 =>
          simp only [List.cons_append, List.cons.injEq] at h
          obtain ⟨_, h⟩ := h
          cases u4 with
          | nil =>
            rw [List.nil_append] at h
            simp only [pageSep, List.cons_append] at h
            injection h with h1 _
            exact absurd h1 (by decide)
          | cons c5 u5 =>
            simp only [List.cons_append, List.cons.injEq] at h
            obtain ⟨_, h⟩ := h
            have hp : 'p' ∈ ds := by
              rw [h]
              simp [pageSep]
            have := pyInt_chars ds n hds 'p' hp
            exact absurd this (by decide)

lemma basePage_parseable (stem base ds : List Char) (n : Int)
    (hstem : stem = base ++ pageSep ++ ds) (hds : pyInt ds = some n) :
    basePage stem = (base, some n) := by
  have hlast : rsplitOnce pageSep stem = some (base, ds) := by
    rw [hstem]
    exact rsplitOnce_last pageSep (by decide) base ds (no_late_pageSep ds n hds)
  simp only [basePage, hlast, hds]

lemma basePage_not_parseable (stem : List Char)
    (h : ¬ ∃ base ds n, stem = base ++ pageSep ++ ds ∧ pyInt ds = some n) :
    basePage stem = (stem, none) := by
  unfold basePage
  cases hr : rsplitOnce pageSep stem with
  | none => rfl
  | some p =>
    obtain ⟨b, q⟩ := p
    have hdec := rsplitOnce_sound pageSep stem b q hr
    cases hq : pyInt q with
    | none => simp only [hq]
    | some n => exact absurd ⟨b, q, n, hdec, hq⟩ h

/-- Claim C3: for every markdown file collected by `collect_files`, the
derived record has `split` equal to the first path segment when the relative
path has at least two segments and `"train"` otherwise; `page_number` and
`source_file` are obtained by splitting the stem at the last `"_page"` whose
suffix parses as a Python integer, and for any other stem `page_number` is
null and `source_file` is the whole stem; `id` and `file_path` both equal
the string form of the relative path. -/
theorem collect_files_record_fields (parts : List String)
    (stem text : List Char) :
    (∀ p rest, parts = p :: rest → 2 ≤ parts.length →
      (collectRecord parts stem text).split = p) ∧
    (parts.length < 2 → (collectRecord parts stem text).split = "train") ∧
    (∀ base ds n, stem = base ++ pageSep ++ ds → pyInt ds = some n →
      (collectRecord parts stem text).page_number = some n ∧
      (collectRecord parts stem text).source_file = base) ∧
    ((¬ ∃ base ds n, stem = base ++ pageSep ++ ds ∧ pyInt ds = some n) →
      (collectRecord parts stem text).page_number = none ∧
      (collectRecord parts stem text).source_file = stem) ∧
    (collectRecord parts stem text).id = String.intercalate "/" parts ∧
    (collectRecord parts stem text).file_path
      = (collectRecord parts stem text).id := by
  refine ⟨?_, ?_, ?_, ?_, rfl, rfl⟩
  · intro p rest hp hlen
    subst hp
    cases rest with
    | nil => simp at hlen
    | cons q qs => rfl
  · intro hlen
    cases parts with
    | nil => rfl
    | cons p rest =>
      cases rest with
      | nil => rfl
      | cons q qs =>
        simp only [List.length_cons] at hlen
        omega
  · intro base ds n hstem hds
    have hb := basePage_parseable stem base ds n hstem hds
    constructor
    · show (basePage stem).2 = some n
      rw [hb]
    · show (basePage stem).1 = base
      rw [hb]
  · intro hne
    have hb := basePage_not_parseable stem hne
    constructor
    · show (basePage stem).2 = none
      rw [hb]
    · show (basePage stem).1 = stem
      rw [hb]

/-- Witness for `collect_files_record_fields` at the spec's example file
`train/report_page007.md`. -/
theorem collect_files_record_fields_witness :
    (∀ p rest, ["train", "report_page007.md"] = p :: rest →
      2 ≤ (["train", "report_page007.md"] : List String).length →
      (collectRecord ["train", "report_page007.md"] "report_page007".data
        ['x']).split = p) ∧
    ((["train", "report_page007.md"] : List String).length < 2 →
      (collectRecord ["train", "report_page007.md"] "report_page007".data
        ['x']).split = "train") ∧
    (∀ base ds n, "report_page007".data = base ++ pageSep ++ ds →
      pyInt ds = some n →
      (collectRecord ["train", "report_page007.md"] "report_page007".data
        ['x']).page_number = some n ∧
      (collectRecord ["train", "report_page007.md"] "report_page007".data
        ['x']).source_file = base) ∧
    ((¬ ∃ base ds n, "report_page007".data = base ++ pageSep ++ ds ∧
        pyInt ds = some n) →
      (collectRecord ["train", "report_page007.md"] "report_page007".data
        ['x']).page_number = none ∧
      (collectRecord ["train", "report_page007.md"] "report_page007".data
        ['x']).source_file = "report_page007".data) ∧
    (collectRecord ["train", "report_page007.md"] "report_page007".data
      ['x']).id = String.intercalate "/" ["train", "report_page007.md"] ∧
    (collectRecord ["train", "report_page007.md"] "report_page007".data
      ['x']).file_path
      = (collectRecord ["train", "report_page007.md"] "report_page007".data
        ['x']).id :=
  collect_files_record_fields ["train", "report_page007.md"]
    "report_page007".data ['x']

/-! ## Manifest statistics -/

lemma statsStep_eq (acc : Nat × Nat × Nat × Nat) (r : ResourceRecord) :
    statsStep acc r =
      (acc.1 + (if r.download_status = ProcessingStatus.downloaded
          then 1 else 0),
       acc.2.1 + (if r.ocr_status = some ProcessingStatus.completed
          then 1 else 0),
       acc.2.2.1
         + (if r.transcription_status = some ProcessingStatus.completed
            then 1 else 0),
       acc.2.2.2
         + (if r.download_status = ProcessingStatus.failed then 1 else 0)
         + (if r.ocr_status = some ProcessingStatus.failed then 1 else 0)
         + (if r.transcription_status = some ProcessingStatus.failed
            then 1 else 0)) := by
  obtain ⟨d, o, t, f⟩ := acc
  obtain ⟨u, rt, st, fn, lp, da, pr, ds, os, ts, op, tp, em, rc⟩ := r
  rcases os with _ | os <;> rcases ts with _ | ts <;> cases ds <;>
    (try cases os) <;> (try cases ts) <;> rfl

lemma foldl_statsStep (l : List ResourceRecord) :
    ∀ acc : Nat × Nat × Nat × Nat,
      l.foldl statsStep acc =
        (acc.1 + specDownloaded l, acc.2.1 + specOcrCompleted l,
         acc.2.2.1 + specTranscriptionCompleted l,
         acc.2.2.2 + specFailed l) := by
  induction l with
  | nil =>
    intro acc
    simp [specDownloaded, specOcrCompleted, specTranscriptionCompleted,
      specFailed]
  | cons r rest ih =>
    intro acc
    rw [List.foldl_cons, statsStep_eq, ih]
    simp only [specDownloaded, specOcrCompleted, specTranscriptionCompleted,
      specFailed, List.countP_cons, decide_eq_true_eq, Prod.mk.injEq]
    refine ⟨?_, ?_, ?_, ?_⟩ <;> split_ifs <;> omega

lemma updateStatistics_spec (m : CollectionManifest) :
    (updateStatistics m).downloaded
        = specDownloaded (m.resources.map Prod.snd) ∧
    (updateStatistics m).ocr_completed
        = specOcrCompleted (m.resources.map Prod.snd) ∧
    (updateStatistics m).transcription_completed
        = specTranscriptionCompleted (m.resources.map Prod.snd) ∧
    (updateStatistics m).failed = specFailed (m.resources.map Prod.snd) ∧
    (updateStatistics m).resources = m.resources := by
  have hst := foldl_statsStep (m.resources.map Prod.snd) (0, 0, 0, 0)
  refine ⟨?_, ?_, ?_, ?_, rfl⟩
  · show ((m.resources.map Prod.snd).foldl statsStep (0, 0, 0, 0)).1 = _
    rw [hst]
    simp
  · show ((m.resources.map Prod.snd).foldl statsStep (0, 0, 0, 0)).2.1 = _
    rw [hst]
    simp
  · show ((m.resources.map Prod.snd).foldl statsStep (0, 0, 0, 0)).2.2.1 = _
    rw [hst]
    simp
  · show ((m.resources.map Prod.snd).foldl statsStep (0, 0, 0, 0)).2.2.2 = _
    rw [hst]
    simp

/-- Claim C1: after `update_resource_status` on a loaded manifest at a known
URL, the four aggregate counters equal a full re-scan of the resource
mapping: `downloaded`, `ocr_completed` and `transcription_completed` count
the matching statuses, and `failed` counts (resource, stage) failure pairs
across the three stages, so a resource failing at two stages contributes
twice. -/
theorem manifest_update_status_counters (now : Nat) (url : String)
    (dls ocs trs : Option ProcessingStatus) (em : Option String)
    (s : ManagerState) (m : CollectionManifest) (r : ResourceRecord)
    (hm : s.manifest = some m) (hr : dictGet url m.resources = some r) :
    ∃ m',
      ((update_resource_status now url dls ocs trs em s).1).manifest
        = some m' ∧
      (update_resource_status now url dls ocs trs em s).2 = Except.ok () ∧
      m'.downloaded = specDownloaded (m'.resources.map Prod.snd) ∧
      m'.ocr_completed = specOcrCompleted (m'.resources.map Prod.snd) ∧
      m'.transcription_completed
        = specTranscriptionCompleted (m'.resources.map Prod.snd) ∧
      m'.failed = specFailed (m'.resources.map Prod.snd) := by
  have hspec := updateStatistics_spec
    { m with resources :=
        dictInsert url (applyStatusUpdate r dls ocs trs em) m.resources }
  simp only [update_resource_status, hm, hr, save_manifest]
  refine ⟨_, rfl, ?_, hspec.1, hspec.2.1, hspec.2.2.1, hspec.2.2.2.1⟩
  trivial

/-- Witness for `manifest_update_status_counters`: marking the sample
resource downloaded. -/
theorem manifest_update_status_counters_witness :
    sampleState.manifest = some sampleManifest ∧
    dictGet "http://x/a.pdf" sampleManifest.resources = some sampleResource ∧
    ∃ m',
      ((update_resource_status 7 "http://x/a.pdf"
          (some ProcessingStatus.downloaded) none none none
          sampleState).1).manifest = some m' ∧
      (update_resource_status 7 "http://x/a.pdf"
          (some ProcessingStatus.downloaded) none none none
          sampleState).2 = Except.ok () ∧
      m'.downloaded = specDownloaded (m'.resources.map Prod.snd) ∧
      m'.ocr_completed = specOcrCompleted (m'.resources.map Prod.snd) ∧
      m'.transcription_completed
        = specTranscriptionCompleted (m'.resources.map Prod.snd) ∧
      m'.failed = specFailed (m'.resources.map Prod.snd) :=
  ⟨rfl, by decide,
    manifest_update_status_counters 7 "http://x/a.pdf"
      (some ProcessingStatus.downloaded) none none none
      sampleState sampleManifest sampleResource rfl (by decide)⟩

/-- Claim C4: `update_resource_status` on a URL absent from a loaded
manifest raises a KeyError-style not-found error and returns with both the
in-memory manifest and the on-disk manifest exactly as they were: no field
changes, no counter changes, no save. -/
theorem update_status_unknown_url (now : Nat) (url : String)
    (dls ocs trs : Option ProcessingStatus) (em : Option String)
    (s : ManagerState) (m : CollectionManifest)
    (hm : s.manifest = some m) (hr : dictGet url m.resources = none) :
    update_resource_status now url dls ocs trs em s
      = (s, Except.error ("Resource not found in manifest: " ++ url)) := by
  simp only [update_resource_status, hm, hr]

/-- Witness for `update_status_unknown_url`: a URL missing from the sample
manifest. -/
theorem update_status_unknown_url_witness :
    sampleState.manifest = some sampleManifest ∧
    dictGet "http://y/b.pdf" sampleManifest.resources = none ∧
    update_resource_status 7 "http://y/b.pdf" none none none none sampleState
      = (sampleState,
         Except.error ("Resource not found in manifest: " ++ "http://y/b.pdf")) :=
  ⟨rfl, by decide,
    update_status_unknown_url 7 "http://y/b.pdf" none none none none
      sampleState sampleManifest rfl (by decide)⟩

/-- Claim C6: `save()` then `load()` returns a manifest identical to the
in-memory one — same `resources` and `metadata` — with only `last_updated`
changed (to the save time); `load()` with no manifest file on disk fails
with a not-found error and changes nothing. -/
theorem save_load_roundtrip (now : Nat) (s : ManagerState)
    (m : CollectionManifest) (hm : s.manifest = some m) :
    ((save_manifest now s).2 = Except.ok () ∧
     (load_manifest (save_manifest now s).1).2
        = Except.ok { m with last_updated := now } ∧
     CollectionManifest.resources { m with last_updated := now }
        = m.resources ∧
     CollectionManifest.metadata { m with last_updated := now }
        = m.metadata) ∧
    (∀ s2 : ManagerState, s2.disk = none →
      (load_manifest s2).2 = Except.error "Manifest not found" ∧
      (load_manifest s2).1 = s2) := by
  refine ⟨⟨?_, ?_, rfl, rfl⟩, ?_⟩
  · simp [save_manifest, hm]
  · simp [save_manifest, load_manifest, hm]
  · intro s2 h2
    constructor
    · simp [load_manifest, h2]
    · simp [load_manifest, h2]

/-- Witness for `save_load_roundtrip` at time 5 on the sample state. -/
theorem save_load_roundtrip_witness :
    sampleState.manifest = some sampleManifest ∧
    (((save_manifest 5 sampleState).2 = Except.ok () ∧
      (load_manifest (save_manifest 5 sampleState).1).2
        = Except.ok { sampleManifest with last_updated := 5 } ∧
      CollectionManifest.resources
          { sampleManifest with last_updated := 5 }
        = sampleManifest.resources ∧
      CollectionManifest.metadata { sampleManifest with last_updated := 5 }
        = sampleManifest.metadata) ∧
     (∀ s2 : ManagerState, s2.disk = none →
       (load_manifest s2).2 = Except.error "Manifest not found" ∧
       (load_manifest s2).1 = s2)) :=
  ⟨rfl, save_load_roundtrip 5 sampleState sampleManifest rfl⟩

/-! ## Dictionary lemmas and add_resource -/

lemma keys_dictInsert (k : String) (v : ResourceRecord)
    (l : List (String × ResourceRecord)) :
    (dictInsert k v l).map Prod.fst =
      if k ∈ l.map Prod.fst then l.map Prod.fst
      else l.map Prod.fst ++ [k] := by
  induction l with
  | nil => simp [dictInsert]
  | cons p rest ih =>
    obtain ⟨k', v'⟩ := p
    by_cases hk : k' = k
    · subst hk
      simp [dictInsert]
    · simp only [dictInsert, if_neg hk, List.map_cons, List.mem_cons]
      rw [ih]
      by_cases hmem : k ∈ List.map Prod.fst rest
      · rw [if_pos hmem, if_pos (Or.inr hmem)]
      · have hnot : ¬ (k = k' ∨ k ∈ List.map Prod.fst rest) := by
          rintro (h | h)
          · exact hk h.symm
          · exact hmem h
        rw [if_neg hmem, if_neg hnot, List.cons_append]

lemma keys_dictInsert_nodup {k : String} {v : ResourceRecord}
    {l : List (String × ResourceRecord)}
    (h : (l.map Prod.fst).Nodup) :
    ((dictInsert k v l).map Prod.fst).Nodup := by
  rw [keys_dictInsert]
  split_ifs with hmem
  · exact h
  · simp [List.nodup_append, h, hmem]

lemma keys_dictInsert_toFinset (k : String) (v : ResourceRecord)
    (l : List (String × ResourceRecord)) :
    ((dictInsert k v l).map Prod.fst).toFinset
      = insert k (l.map Prod.fst).toFinset := by
  rw [keys_dictInsert]
  split_ifs with hmem
  · rw [Finset.insert_eq_self.mpr (List.mem_toFinset.mpr hmem)]
  · rw [List.toFinset_append]
    simp [Finset.union_comm, Finset.insert_eq]

lemma dictGet_dictInsert (k : String) (v : ResourceRecord)
    (l : List (String × ResourceRecord)) :
    dictGet k (dictInsert k v l) = some v := by
  induction l with
  | nil => simp [dictInsert, dictGet]
  | cons p rest ih =>
    obtain ⟨k', v'⟩ := p
    by_cases hk : k' = k
    · subst hk
      simp [dictInsert, dictGet]
    · simp [dictInsert, dictGet, hk, ih]

lemma length_dictInsert (k : String) (v : ResourceRecord)
    (l : List (String × ResourceRecord)) :
    (dictInsert k v l).length =
      if k ∈ l.map Prod.fst then l.length else l.length + 1 := by
  have h := congrArg List.length (keys_dictInsert k v l)
  rw [List.length_map, apply_ite List.length] at h
  simpa [List.length_map] using h

lemma addAll_spec :
    ∀ (l : List (Nat × ResourceRecord)) (s : ManagerState)
      (m : CollectionManifest), s.manifest = some m →
      m.total_resources = m.resources.length →
      (m.resources.map Prod.fst).Nodup →
      ∃ m', (addAll l s).manifest = some m' ∧
        m'.total_resources = m'.resources.length ∧
        (m'.resources.map Prod.fst).Nodup ∧
        (m'.resources.map Prod.fst).toFinset
          = (m.resources.map Prod.fst).toFinset
            ∪ (l.map (fun p => p.2.url)).toFinset := by
  intro l
  induction l with
  | nil =>
    intro s m hm ht hn
    exact ⟨m, hm, ht, hn, by simp [addAll]⟩
  | cons p rest ih =>
    intro s m hm ht hn
    have hstep : ((add_resource p.1 p.2 s).1).manifest
        = some { m with
            resources := dictInsert p.2.url p.2 m.resources,
            total_resources := (dictInsert p.2.url p.2 m.resources).length,
            last_updated := p.1 } := by
      simp [add_resource, hm, save_manifest]
    have haddAll : addAll (p :: rest) s
        = addAll rest ((add_resource p.1 p.2 s).1) := by
      simp [addAll]
    obtain ⟨m', h1, h2, h3, h4⟩ := ih ((add_resource p.1 p.2 s).1) _ hstep
      rfl (keys_dictInsert_nodup hn)
    refine ⟨m', by rw [haddAll]; exact h1, h2, h3, ?_⟩
    rw [h4]
    show _ = _ ∪ ((p :: rest).map (fun p => p.2.url)).toFinset
    rw [List.map_cons, List.toFinset_cons]
    have hkeys : (CollectionManifest.resources { m with
        resources := dictInsert p.2.url p.2 m.resources,
        total_resources := (dictInsert p.2.url p.2 m.resources).length,
        last_updated := p.1 }).map Prod.fst
        = (dictInsert p.2.url p.2 m.resources).map Prod.fst := rfl
    rw [hkeys, keys_dictInsert_toFinset]
    ext x
    simp only [Finset.mem_union, Finset.mem_insert, List.mem_toFinset]
    tauto

/-- Claim C8: starting from a created (empty) manifest, after any sequence
of `add_resource` calls `total_resources` equals the number of distinct URLs
added; and re-adding a resource whose URL is already present replaces the
stored record without growing the mapping. -/
theorem add_resource_total_distinct :
    (∀ (l : List (Nat × ResourceRecord)) (s : ManagerState)
       (m : CollectionManifest), s.manifest = some m →
       m.resources = [] → m.total_resources = 0 →
       ∃ m', (addAll l s).manifest = some m' ∧
         m'.total_resources
           = (l.map (fun p => p.2.url)).toFinset.card) ∧
    (∀ (now : Nat) (r : ResourceRecord) (s : ManagerState)
       (m : CollectionManifest), s.manifest = some m →
       ∃ m', ((add_resource now r s).1).manifest = some m' ∧
         dictGet r.url m'.resources = some r ∧
         m'.resources.length =
           (if r.url ∈ m.resources.map Prod.fst then m.resources.length
            else m.resources.length + 1)) := by
  constructor
  · intro l s m hm hres htot
    obtain ⟨m', h1, h2, h3, h4⟩ := addAll_spec l s m hm
      (by rw [hres, htot]; rfl) (by rw [hres]; exact List.nodup_nil)
    refine ⟨m', h1, ?_⟩
    rw [h2, ← List.length_map _ Prod.fst,
      ← List.toFinset_card_of_nodup h3, h4, hres]
    simp
  · intro now r s m hm
    have hstep : ((add_resource now r s).1).manifest
        = some { m with
            resources := dictInsert r.url r m.resources,
            total_resources := (dictInsert r.url r m.resources).length,
            last_updated := now } := by
      simp [add_resource, hm, save_manifest]
    refine ⟨_, hstep, ?_, ?_⟩
    · show dictGet r.url (dictInsert r.url r m.resources) = some r
      exact dictGet_dictInsert r.url r m.resources
    · show (dictInsert r.url r m.resources).length = _
      exact length_dictInsert r.url r m.resources

/-- Witness for `add_resource_total_distinct`: two adds of the same URL onto
a created manifest, and a re-add onto the sample manifest. -/
theorem add_resource_total_distinct_witness :
    emptyState.manifest = some emptyManifest ∧
    emptyManifest.resources = [] ∧
    emptyManifest.total_resources = 0 ∧
    sampleState.manifest = some sampleManifest ∧
    (∃ m', (addAll [(1, sampleResource), (2, sampleResource)]
        emptyState).manifest = some m' ∧
      m'.total_resources
        = (([(1, sampleResource), (2, sampleResource)]
            : List (Nat × ResourceRecord)).map
              (fun p => p.2.url)).toFinset.card) ∧
    (∃ m', ((add_resource 3 sampleResource sampleState).1).manifest
        = some m' ∧
      dictGet sampleResource.url m'.resources = some sampleResource ∧
      m'.resources.length =
        (if sampleResource.url ∈ sampleManifest.resources.map Prod.fst
         then sampleManifest.resources.length
         else sampleManifest.resources.length + 1)) :=
  ⟨rfl, rfl, rfl, rfl,
    add_resource_total_distinct.1 [(1, sampleResource), (2, sampleResource)]
      emptyState emptyManifest rfl rfl rfl,
    add_resource_total_distinct.2 3 sampleResource sampleState
      sampleManifest rfl⟩

/-- Claim C9: calling `mark_completed` twice (with a non-decreasing clock)
sets `completed_at` to a value at least as late as the first call, and
leaves the resource mapping and all aggregate counters unchanged across
both calls. -/
theorem mark_completed_idempotent (t1 t2 : Nat) (s : ManagerState)
    (m : CollectionManifest) (hm : s.manifest = some m) (hle : t1 ≤ t2) :
    ∃ m1 m2,
      ((mark_completed t1 s).1).manifest = some m1 ∧
      ((mark_completed t2 (mark_completed t1 s).1).1).manifest = some m2 ∧
      m1.completed_at = some t1 ∧ m2.completed_at = some t2 ∧
      (∀ a b, m1.completed_at = some a → m2.completed_at = some b →
        a ≤ b) ∧
      m1.resources = m.resources ∧ m2.resources = m.resources ∧
      m1.total_resources = m.total_resources ∧
      m2.total_resources = m.total_resources ∧
      m1.downloaded = m.downloaded ∧ m2.downloaded = m.downloaded ∧
      m1.ocr_completed = m.ocr_completed ∧
      m2.ocr_completed = m.ocr_completed ∧
      m1.transcription_completed = m.transcription_completed ∧
      m2.transcription_completed = m.transcription_completed ∧
      m1.failed = m.failed ∧ m2.failed = m.failed := by
  refine ⟨{ m with completed_at := some t1, last_updated := t1 },
          { m with completed_at := some t2, last_updated := t2 },
          ?_, ?_, rfl, rfl, ?_, rfl, rfl, rfl, rfl, rfl, rfl, rfl, rfl,
          rfl, rfl, rfl, rfl⟩
  · simp [mark_completed, hm, save_manifest]
  · simp [mark_completed, hm, save_manifest]
  · intro a b ha hb
    have ha' : t1 = a := by
      simpa using ha
    have hb' : t2 = b := by
      simpa using hb
    rw [← ha', ← hb']
    exact hle

/-- Witness for `mark_completed_idempotent` at times 1 and 2 on the sample
state. -/
theorem mark_completed_idempotent_witness :
    sampleState.manifest = some sampleManifest ∧ 1 ≤ 2 ∧
    ∃ m1 m2,
      ((mark_completed 1 sampleState).1).manifest = some m1 ∧
      ((mark_completed 2 (mark_completed 1 sampleState).1).1).manifest
        = some m2 ∧
      m1.completed_at = some 1 ∧ m2.completed_at = some 2 ∧
      (∀ a b, m1.completed_at = some a → m2.completed_at = some b →
        a ≤ b) ∧
      m1.resources = sampleManifest.resources ∧
      m2.resources = sampleManifest.resources ∧
      m1.total_resources = sampleManifest.total_resources ∧
      m2.total_resources = sampleManifest.total_resources ∧
      m1.downloaded = sampleManifest.downloaded ∧
      m2.downloaded = sampleManifest.downloaded ∧
      m1.ocr_completed = sampleManifest.ocr_completed ∧
      m2.ocr_completed = sampleManifest.ocr_completed ∧
      m1.transcription_completed
        = sampleManifest.transcription_completed ∧
      m2.transcription_completed
        = sampleManifest.transcription_completed ∧
      m1.failed = sampleManifest.failed ∧
      m2.failed = sampleManifest.failed :=
  ⟨rfl, by decide,
    mark_completed_idempotent 1 2 sampleState sampleManifest rfl
      (by decide)⟩

end OCRPipeline



